import Mathlib

/-!
Shallow embedding of the query engine in src/dataindex.py (class MaterialDataStore).

Modelling conventions:
* Python strings are lists of Unicode code points (List Nat); Python None on an
  optional string is Option.none.
* Python floats are modelled as rationals; float parsing of a finite decimal
  literal is modelled exactly, and non-finite literals (inf, nan) as well as
  underscore separators are outside the model.
* Python dicts are insertion-ordered association lists; assignment replaces the
  binding in place or appends a fresh one, so keys stay unique.
* Fallible operations return Option or Except; a raised exception that aborts a
  builder is an Except.error value.
-/

/-- Python strings, as lists of Unicode code points. -/
abbrev PyStr := List ℕ

/-- Code-point list of a Lean string literal (helper for concrete inputs). -/
def pys (s : String) : PyStr := s.data.map Char.toNat

/-- Python dict lookup (keys are unique in dicts built with pySet). -/
def pyGet {K V : Type} [DecidableEq K] (d : List (K × V)) (k : K) : Option V :=
  match d with
  | [] => none
  | (k1, v) :: rest => if k1 = k then some v else pyGet rest k

/-- Python dict assignment: replace the existing binding in place, else append. -/
def pySet {K V : Type} [DecidableEq K] (d : List (K × V)) (k : K) (v : V) :
    List (K × V) :=
  match d with
  | [] => [(k, v)]
  | (k1, v1) :: rest => if k1 = k then (k, v) :: rest else (k1, v1) :: pySet rest k v

/-- Code points stripped by str.strip() for the ASCII range of these data files. -/
def pyIsSpace (c : ℕ) : Bool := decide (c = 32 ∨ c = 9 ∨ c = 10 ∨ c = 13 ∨ c = 11 ∨ c = 12)

/-- str.upper() on one ASCII code point. -/
def pyUpperChar (c : ℕ) : ℕ := if 97 ≤ c ∧ c ≤ 122 then c - 32 else c

/-- str.lower() on one ASCII code point. -/
def pyLowerChar (c : ℕ) : ℕ := if 65 ≤ c ∧ c ≤ 90 then c + 32 else c

/-- Leading-whitespace strip. -/
def pyLstrip (s : PyStr) : PyStr := s.dropWhile pyIsSpace

/-- Trailing-whitespace strip. -/
def pyRstrip (s : PyStr) : PyStr := (s.reverse.dropWhile pyIsSpace).reverse

/-- Python str.strip(). -/
def pyStrip (s : PyStr) : PyStr := pyRstrip (pyLstrip s)

/-- Python str.upper(). -/
def pyUpper (s : PyStr) : PyStr := s.map pyUpperChar

/-- Python str.lower(). -/
def pyLower (s : PyStr) : PyStr := s.map pyLowerChar

/-- Source MaterialDataStore._norm: (s or "").strip().upper(); a Python None
argument is the empty string. -/
def pyNorm (s : PyStr) : PyStr := pyUpper (pyStrip s)

/-- Decimal digit test on a code point. -/
def isDigitCp (c : ℕ) : Bool := decide (48 ≤ c ∧ c ≤ 57)

/-- Value of a digit run (most significant first). -/
def digitsToNat (l : PyStr) : ℕ := l.foldl (fun a c => a * 10 + (c - 48)) 0

/-- Exponent part of a float literal: optional sign then a nonempty digit run. -/
def parseExpPart (l : PyStr) : Option ℤ :=
  match l with
  | 43 :: r => if r ≠ [] ∧ r.all isDigitCp then some (digitsToNat r : ℤ) else none
  | 45 :: r => if r ≠ [] ∧ r.all isDigitCp then some (-(digitsToNat r : ℤ)) else none
  | r => if r ≠ [] ∧ r.all isDigitCp then some (digitsToNat r : ℤ) else none

/-- Integer power of ten over the rationals. -/
def tenPow (e : ℤ) : ℚ :=
  if 0 ≤ e then ((10 : ℚ) ^ e.toNat) else 1 / ((10 : ℚ) ^ (-e).toNat)

/-- Models CPython float() applied to a string holding a finite decimal literal:
optional surrounding whitespace, optional sign, digits with an optional decimal
point (at least one digit overall), and an optional e/E exponent. Literals such
as inf or nan, which have no rational value, are outside the model. -/
def strToFloat (s : PyStr) : Option ℚ :=
  let t := pyStrip s
  let su : ℚ × PyStr :=
    match t with
    | 43 :: r => (1, r)
    | 45 :: r => (-1, r)
    | r => (1, r)
  let sgn := su.1
  let u := su.2
  let ip := u.takeWhile isDigitCp
  let r1 := u.dropWhile isDigitCp
  match r1 with
  | [] => if ip = [] then none else some (sgn * (digitsToNat ip : ℚ))
  | 46 :: r2 =>
    let fp := r2.takeWhile isDigitCp
    let r3 := r2.dropWhile isDigitCp
    if ip = [] ∧ fp = [] then none
    else
      let mant : ℚ := (digitsToNat ip : ℚ) + (digitsToNat fp : ℚ) / ((10 : ℚ) ^ fp.length)
      match r3 with
      | [] => some (sgn * mant)
      | e :: r4 =>
        if e = 101 ∨ e = 69 then (parseExpPart r4).map (fun ex => sgn * mant * tenPow ex)
        else none
  | e :: r4 =>
    if (e = 101 ∨ e = 69) ∧ ip ≠ [] then
      (parseExpPart r4).map (fun ex => sgn * (digitsToNat ip : ℚ) * tenPow ex)
    else none

/-- Source MaterialDataStore._to_float: float(str(x).strip()) with exceptions
mapped to None. -/
def to_float (x : PyStr) : Option ℚ := strToFloat (pyStrip x)

/-- Python int() truncation toward zero of a rational. -/
def pyTrunc (q : ℚ) : ℤ := q.num.sign * ((q.num.natAbs / q.den : ℕ) : ℤ)

/-- Tabcode row entry: optional correction-table number per surface. -/
structure TabEntry where
  bare : Option ℤ
  clad : Option ℤ
  deriving DecidableEq

/-- One numbered correction table: uncorrected axis, thickness axis, value grid. -/
structure CorrTable where
  uncorr : List ℚ
  thicks : List ℚ
  grid : List (List (Option ℚ))
  deriving DecidableEq

/-- Conductivity index type: normalized (spec, material, temper) to (min, max). -/
abbrev CondIdx := List ((PyStr × PyStr × PyStr) × (Option ℚ × Option ℚ))

/-- Hardness series type: composite key to (thickness, requirement) pairs. -/
abbrev HardTable := List (PyStr × List (ℚ × Option PyStr))

/-- The five in-memory indices of MaterialDataStore. -/
structure MaterialDataStore where
  cond_idx : CondIdx
  bare_min : HardTable
  bare_max : HardTable
  clad_min : HardTable
  clad_max : HardTable
  tabcodes : List (PyStr × TabEntry)
  corr_tables : List (ℤ × CorrTable)

/-- Result record of search_all. -/
structure SearchResult where
  CorrectedMin : Option ℚ
  CorrectedMax : Option ℚ
  HardnessMin : Option PyStr
  HardnessMax : Option PyStr
  deriving DecidableEq

/-- Strict comparison of a distance against the running best, where none is the
initial best of positive infinity. -/
def distLtB (d : ℚ) (bd : Option ℚ) : Bool :=
  match bd with
  | none => true
  | some b => decide (d < b)

/-- Loop body of MaterialDataStore._nearest_idx: linear scan keeping the first
index that strictly improves the best distance. -/
def nearestIdxGo (target : ℚ) : List ℚ → ℕ → ℕ → Option ℚ → ℕ
  | [], _, bi, _ => bi
  | v :: rest, i, bi, bd =>
    if distLtB |v - target| bd then nearestIdxGo target rest (i + 1) i (some |v - target|)
    else nearestIdxGo target rest (i + 1) bi bd

/-- Source MaterialDataStore._nearest_idx. -/
def nearest_idx (values : List ℚ) (target : ℚ) : Option ℕ :=
  if values = [] then none else some (nearestIdxGo target values 0 0 none)

/-- The fixed tolerance 1e-6 of MaterialDataStore._nearest_value. -/
def nvTol : ℚ := 1 / 1000000

/-- Final loop of MaterialDataStore._nearest_value: linear scan keeping the value
of the first pair that strictly improves the best distance. -/
def bestScan {V : Type} (th : ℚ) : List (ℚ × Option V) → Option V → Option ℚ → Option V
  | [], bv, _ => bv
  | p :: ps, bv, bd =>
    if distLtB |p.1 - th| bd then bestScan th ps p.2 (some |p.1 - th|)
    else bestScan th ps bv bd

/-- Source MaterialDataStore._nearest_value with its default tolerance. -/
def nearest_value {V : Type} (pairs : List (ℚ × Option V)) (th : ℚ) : Option V :=
  if pairs.isEmpty then none
  else
    let exact := (pairs.filter fun p => decide (|p.1 - th| ≤ nvTol)).map Prod.snd
    match exact.find? Option.isSome with
    | some v => v
    | none =>
      match exact with
      | v0 :: _ => v0
      | [] => bestScan th pairs none none

/-- Source MaterialDataStore._correct_iacs. The grid reads use getD; the row and
column indices are in range for every table built by load_correction_table
(grid row count equals the uncorrected-axis length, each row has the
thickness-axis length), so getD agrees with the Python grid indexing there. -/
def correct_iacs (st : MaterialDataStore) (tableNo : ℤ) (base th : ℚ) : Option ℚ :=
  match pyGet st.corr_tables tableNo with
  | none => none
  | some T =>
    if T.uncorr = [] ∨ T.thicks = [] ∨ T.grid = [] then none
    else
      match nearest_idx T.uncorr base, nearest_idx T.thicks th with
      | some ri, some ci => (T.grid.getD ri []).getD ci none
      | _, _ => none

/-- Composite key string: the three normalized tokens joined with hyphens. -/
def concatKey (a b c : PyStr) : PyStr := a ++ [45] ++ b ++ [45] ++ c

/-- Surface branch of search_all: the hardness min/max series and the tabcode
selected for the normalized surface (only the exact text BARE selects bare). -/
def surfaceSelect (st : MaterialDataStore) (concat surface : PyStr) :
    List (ℚ × Option PyStr) × List (ℚ × Option PyStr) × Option ℤ :=
  if pyNorm surface = pys "BARE" then
    ((pyGet st.bare_min concat).getD [], (pyGet st.bare_max concat).getD [],
      (pyGet st.tabcodes concat).bind TabEntry.bare)
  else
    ((pyGet st.clad_min concat).getD [], (pyGet st.clad_max concat).getD [],
      (pyGet st.tabcodes concat).bind TabEntry.clad)

/-- Source MaterialDataStore.search_all, after the float(thickness) conversion
(see search_all_checked for that step). -/
def search_all (st : MaterialDataStore) (spec material temper : PyStr) (t : ℚ)
    (surface : PyStr) : SearchResult :=
  let specU := pyNorm spec
  let matU := pyNorm material
  let tempU := pyNorm temper
  let base := (pyGet st.cond_idx (specU, matU, tempU)).getD (none, none)
  let concat := concatKey specU matU tempU
  let sel := surfaceSelect st concat surface
  let hardMin := nearest_value sel.1 t
  let hardMax := nearest_value sel.2.1 t
  let correctedMin :=
    match sel.2.2, base.1 with
    | some c, some b => correct_iacs st c b t
    | _, _ => base.1
  let correctedMax :=
    match sel.2.2, base.2 with
    | some c, some b => correct_iacs st c b t
    | _, _ => base.2
  ⟨correctedMin, correctedMax, hardMin, hardMax⟩

/-- Exceptions that escape search_all. -/
inductive PyErr where
  | valueError
  deriving DecidableEq

/-- Source MaterialDataStore.search_all taking the thickness argument as the
string it was handed: t = float(thickness) raises ValueError on a string that
is not a float literal, and the exception escapes. The dict lookups that
textually precede that line are pure, so the observable outcome is the same as
converting first. -/
def search_all_checked (st : MaterialDataStore) (spec material temper : PyStr)
    (thickness : PyStr) (surface : PyStr) : Except PyErr SearchResult :=
  match strToFloat thickness with
  | none => .error .valueError
  | some t => .ok (search_all st spec material temper t surface)

/-- Body-row step of MaterialDataStore._load_correction_tables: parse the first
cell as the uncorrected-axis point (drop the row if that fails), parse the next
thickness-axis-length cells as optional grid values, and keep the row only when
that cell count equals the thickness-axis length. -/
def corrRowStep (thicks : List ℚ) (acc : List ℚ × List (List (Option ℚ)))
    (r : List PyStr) : List ℚ × List (List (Option ℚ)) :=
  match to_float (r.headD []) with
  | none => acc
  | some u =>
    let rowVals := ((r.drop 1).take thicks.length).map to_float
    if rowVals.length = thicks.length then (acc.1 ++ [u], acc.2 ++ [rowVals]) else acc

/-- Fold of corrRowStep over the body rows of a correction-table file. -/
def corrBody (thicks : List ℚ) (body : List (List PyStr)) :
    List ℚ × List (List (Option ℚ)) :=
  body.foldl (corrRowStep thicks) ([], [])

/-- A row with at least one cell that is nonempty after stripping. -/
def nonBlankRow (r : List PyStr) : Bool := r.any fun c => decide (pyStrip c ≠ [])

/-- Validity of a body row for a given thickness axis: the first cell parses and
the row supplies exactly a full grid row of cells. -/
def corrRowValid (thicks : List ℚ) (r : List PyStr) : Bool :=
  (to_float (r.headD [])).isSome &&
    decide ((((r.drop 1).take thicks.length).map to_float).length = thicks.length)

/-- Source MaterialDataStore._load_correction_tables, for one numbered file that
exists: drop fully blank rows; none stored when nothing remains; row 0 is the
header whose cells after the first give the thickness axis (unparseable cells
skipped); the remaining rows feed corrRowStep. -/
def load_correction_table (rows : List (List PyStr)) : Option CorrTable :=
  let rows1 := rows.filter nonBlankRow
  match rows1 with
  | [] => none
  | header :: body =>
    let thicks := (header.drop 1).filterMap to_float
    let ug := corrBody thicks body
    some ⟨ug.1, thicks, ug.2⟩

/-- Source MaterialDataStore._read_tsv_dicts, one row: pad or truncate the row to
the header length, then build the dict header cell to row cell (a later
duplicate header cell overwrites an earlier one, as in the comprehension). -/
def rowDict (header r : List PyStr) : List (PyStr × PyStr) :=
  let L := header.length
  let rp := (r ++ List.replicate L []).take L
  (List.range L).foldl (fun d i => pySet d (header.getD i []) (rp.getD i [])) []

/-- Header-name map of the builders: stripped lowercased cell to original cell. -/
def colsMap (header : List PyStr) : List (PyStr × PyStr) :=
  header.foldl (fun d c => pySet d (pyLower (pyStrip c)) c) []

/-- Required conductivity columns, in the order the source checks them. -/
def condNeeds : List PyStr := [pys "spec", pys "material", pys "temper", pys "min", pys "max"]

/-- Required tabcode columns, in the order the source checks them. -/
def tabNeeds : List PyStr := [pys "concat", pys "bare", pys "clad"]

/-- First required column missing from the header map, if any. -/
def firstMissing (cols : List (PyStr × PyStr)) (needs : List PyStr) : Option PyStr :=
  needs.find? fun n => (pyGet cols n).isNone

/-- Normalized (spec, material, temper) key of one conductivity data row. -/
def condRowKey (cols : List (PyStr × PyStr)) (row : List (PyStr × PyStr)) :
    PyStr × PyStr × PyStr :=
  (pyNorm ((pyGet row ((pyGet cols (pys "spec")).getD [])).getD []),
   pyNorm ((pyGet row ((pyGet cols (pys "material")).getD [])).getD []),
   pyNorm ((pyGet row ((pyGet cols (pys "temper")).getD [])).getD []))

/-- Parsed (min, max) cells of one conductivity data row; a missing cell is the
Python None whose str() never parses as a float, so bind to_float matches. -/
def condRowVals (cols : List (PyStr × PyStr)) (row : List (PyStr × PyStr)) :
    Option ℚ × Option ℚ :=
  ((pyGet row ((pyGet cols (pys "min")).getD [])).bind to_float,
   (pyGet row ((pyGet cols (pys "max")).getD [])).bind to_float)

/-- Data-row step of MaterialDataStore._build_conductivity_index: skip the row if
any normalized key token is empty, else store (last assignment wins). -/
def condStep (cols : List (PyStr × PyStr)) (idx : CondIdx) (row : List (PyStr × PyStr)) :
    CondIdx :=
  let k := condRowKey cols row
  if k.1 = [] ∨ k.2.1 = [] ∨ k.2.2 = [] then idx
  else pySet idx k (condRowVals cols row)

/-- Source MaterialDataStore._build_conductivity_index on the rows of the
conductivity file: raise on the first missing required column, else fold the
data rows. -/
def build_conductivity_index (rows : List (List PyStr)) : Except PyStr CondIdx :=
  let header := rows.headD []
  let dicts := (rows.drop 1).map (rowDict header)
  let cols := colsMap header
  match firstMissing cols condNeeds with
  | some m => .error m
  | none => .ok (dicts.foldl (condStep cols) [])

/-- Source parse_code inside MaterialDataStore._load_tabcodes: empty or
not-prefixed cells give none, else int(float(s)) truncation, failures give none. -/
def parse_code (o : Option PyStr) : Option ℤ :=
  let s := pyStrip (o.getD [])
  if s = [] ∨ (pyLower s).take 3 = pys "not" then none
  else (strToFloat s).map pyTrunc

/-- Data-row step of MaterialDataStore._load_tabcodes. -/
def tabStep (cols : List (PyStr × PyStr)) (tab : List (PyStr × TabEntry))
    (row : List (PyStr × PyStr)) : List (PyStr × TabEntry) :=
  pySet tab (pyNorm ((pyGet row ((pyGet cols (pys "concat")).getD [])).getD []))
    ⟨parse_code (pyGet row ((pyGet cols (pys "bare")).getD [])),
     parse_code (pyGet row ((pyGet cols (pys "clad")).getD []))⟩

/-- Source MaterialDataStore._load_tabcodes on the rows of the tabcode file. -/
def load_tabcodes (rows : List (List PyStr)) : Except PyStr (List (PyStr × TabEntry)) :=
  let header := rows.headD []
  let dicts := (rows.drop 1).map (rowDict header)
  let cols := colsMap header
  match firstMissing cols tabNeeds with
  | some m => .error m
  | none => .ok (dicts.foldl (tabStep cols) [])

/-- Count of cells of a row holding at least two hyphens. -/
def headerScore (r : List PyStr) : ℕ := r.countP fun c => decide (2 ≤ c.count 45)

/-- Scan loop of the header-row detection in
MaterialDataStore._build_hardness_table: first row with score at least 5 wins,
else 0. -/
def headerScanGo : List (List PyStr) → ℕ → ℕ
  | [], _ => 0
  | r :: rest, i => if 5 ≤ headerScore r then i else headerScanGo rest (i + 1)

/-- Header-row index detection of MaterialDataStore._build_hardness_table: scan
only the first 10 rows. -/
def header_row_index (rows : List (List PyStr)) : ℕ := headerScanGo (rows.take 10) 0

/-! Basic dictionary lemmas. -/

theorem pyGet_pySet_self {K V : Type} [DecidableEq K] (d : List (K × V)) (k : K) (v : V) :
    pyGet (pySet d k v) k = some v := by
  induction d with
  | nil => simp [pySet, pyGet]
  | cons hd tl ih =>
    obtain ⟨k1, v1⟩ := hd
    by_cases hk : k1 = k <;> simp [pySet, pyGet, hk, ih]

theorem pyGet_pySet_ne {K V : Type} [DecidableEq K] (d : List (K × V)) (k k2 : K) (v : V)
    (h : k ≠ k2) : pyGet (pySet d k v) k2 = pyGet d k2 := by
  induction d with
  | nil => simp [pySet, pyGet, h]
  | cons hd tl ih =>
    obtain ⟨k1, v1⟩ := hd
    by_cases hk : k1 = k
    · subst hk; simp [pySet, pyGet, h]
    · simp [pySet, pyGet, hk, ih]

/-- C10: search_all converts its thickness argument with float() and, for every
thickness string that is not a float literal, raises (returns the ValueError
outcome) instead of returning a result record; a convertible thickness reaches
the ordinary result. -/
theorem search_all_raises_on_bad_thickness (st : MaterialDataStore)
    (spec material temper surface s : PyStr) :
    (strToFloat s = none →
      search_all_checked st spec material temper s surface = .error .valueError) ∧
    (∀ q : ℚ, strToFloat s = some q →
      search_all_checked st spec material temper s surface =
        .ok (search_all st spec material temper q surface)) := by
  constructor
  · intro h; simp [search_all_checked, h]
  · intro q h; simp [search_all_checked, h]

/-- Witness for C10 at the non-numeric thickness string abc. -/
theorem search_all_raises_on_bad_thickness_witness :
    strToFloat (pys "abc") = none ∧
    search_all_checked ⟨[], [], [], [], [], [], []⟩ (pys "XXX2") (pys "7075") (pys "T6XX")
        (pys "abc") (pys "bare") = .error .valueError :=
  ⟨by decide,
    (search_all_raises_on_bad_thickness ⟨[], [], [], [], [], [], []⟩ (pys "XXX2") (pys "7075")
      (pys "T6XX") (pys "bare") (pys "abc")).1 (by decide)⟩

/-- C3: a query whose normalized key is absent from the conductivity index and
whose composite key is absent from every hardness series table and from the
tabcode table returns the record with all four fields absent (search_all is a
total function, so no exception arises). -/
theorem search_all_unknown_key_all_absent (st : MaterialDataStore)
    (spec material temper : PyStr) (t : ℚ) (surface : PyStr)
    (hc : pyGet st.cond_idx (pyNorm spec, pyNorm material, pyNorm temper) = none)
    (hbm : pyGet st.bare_min (concatKey (pyNorm spec) (pyNorm material) (pyNorm temper)) = none)
    (hbx : pyGet st.bare_max (concatKey (pyNorm spec) (pyNorm material) (pyNorm temper)) = none)
    (hcm : pyGet st.clad_min (concatKey (pyNorm spec) (pyNorm material) (pyNorm temper)) = none)
    (hcx : pyGet st.clad_max (concatKey (pyNorm spec) (pyNorm material) (pyNorm temper)) = none)
    (ht : pyGet st.tabcodes (concatKey (pyNorm spec) (pyNorm material) (pyNorm temper)) = none) :
    search_all st spec material temper t surface = ⟨none, none, none, none⟩ := by
  by_cases hs : pyNorm surface = pys "BARE" <;>
    simp [search_all, surfaceSelect, hs, hc, hbm, hbx, hcm, hcx, ht, nearest_value]

/-- Witness for C3 on the empty store. -/
theorem search_all_unknown_key_all_absent_witness :
    pyGet (MaterialDataStore.cond_idx ⟨[], [], [], [], [], [], []⟩)
        (pyNorm (pys "XXX2"), pyNorm (pys "7075"), pyNorm (pys "T6XX")) = none ∧
    search_all ⟨[], [], [], [], [], [], []⟩ (pys "XXX2") (pys "7075") (pys "T6XX") 1
        (pys "bare") = ⟨none, none, none, none⟩ :=
  ⟨rfl, search_all_unknown_key_all_absent ⟨[], [], [], [], [], [], []⟩ (pys "XXX2") (pys "7075")
    (pys "T6XX") 1 (pys "bare") rfl rfl rfl rfl rfl rfl⟩

/-- C5: every surface whose normalized form is not exactly BARE selects the clad
hardness series pair and the clad tabcode (and all such surfaces are
interchangeable in search_all); only a surface normalizing to BARE selects the
bare data. No surface value is rejected: surfaceSelect and search_all are total. -/
theorem search_all_surface_fallback (st : MaterialDataStore) :
    (∀ concat surface : PyStr, pyNorm surface ≠ pys "BARE" →
      surfaceSelect st concat surface =
        ((pyGet st.clad_min concat).getD [], (pyGet st.clad_max concat).getD [],
          (pyGet st.tabcodes concat).bind TabEntry.clad)) ∧
    (∀ concat surface : PyStr, pyNorm surface = pys "BARE" →
      surfaceSelect st concat surface =
        ((pyGet st.bare_min concat).getD [], (pyGet st.bare_max concat).getD [],
          (pyGet st.tabcodes concat).bind TabEntry.bare)) ∧
    (∀ (spec material temper : PyStr) (t : ℚ) (s1 s2 : PyStr),
      pyNorm s1 ≠ pys "BARE" → pyNorm s2 ≠ pys "BARE" →
      search_all st spec material temper t s1 = search_all st spec material temper t s2) := by
  refine ⟨?_, ?_, ?_⟩
  · intro concat surface h; simp [surfaceSelect, h]
  · intro concat surface h; simp [surfaceSelect, h]
  · intro sp m tp t s1 s2 h1 h2; simp [search_all, surfaceSelect, h1, h2]

/-- Witness for C5 at the empty-string surface, which resolves to clad. -/
theorem search_all_surface_fallback_witness :
    pyNorm (pys "") ≠ pys "BARE" ∧
    surfaceSelect ⟨[], [], [], [], [], [], []⟩ (pys "K") (pys "") =
      ((pyGet (MaterialDataStore.clad_min ⟨[], [], [], [], [], [], []⟩) (pys "K")).getD [],
        (pyGet (MaterialDataStore.clad_max ⟨[], [], [], [], [], [], []⟩) (pys "K")).getD [],
        (pyGet (MaterialDataStore.tabcodes ⟨[], [], [], [], [], [], []⟩) (pys "K")).bind
          TabEntry.clad) :=
  ⟨by decide, (search_all_surface_fallback ⟨[], [], [], [], [], [], []⟩).1 (pys "K") (pys "")
    (by decide)⟩

/-- Store exhibiting a present tabcode whose numbered correction table is absent:
a base conductivity row for XXX2-7075-T6XX with bounds 30 and 45, a bare
tabcode 3, and no correction tables loaded. -/
def exStore : MaterialDataStore :=
  { cond_idx := [((pys "XXX2", pys "7075", pys "T6XX"), (some 30, some 45))]
    bare_min := []
    bare_max := []
    clad_min := []
    clad_max := []
    tabcodes := [(pys "XXX2-7075-T6XX", ⟨some 3, none⟩)]
    corr_tables := [] }

/-- Counterexample to C1 as stated: on exStore, the bare tabcode 3 is present,
the base minimum bound 30 is present, correction table 3 does not exist, and
the corrected minimum is absent instead of falling back to the base bound. -/
theorem correction_no_fallback_cex :
    pyGet exStore.tabcodes
        (concatKey (pyNorm (pys "XXX2")) (pyNorm (pys "7075")) (pyNorm (pys "T6XX"))) =
      some ⟨some 3, none⟩ ∧
    pyGet exStore.corr_tables 3 = none ∧
    ((pyGet exStore.cond_idx (pyNorm (pys "XXX2"), pyNorm (pys "7075"),
        pyNorm (pys "T6XX"))).getD (none, none)).1 = some 30 ∧
    (search_all exStore (pys "XXX2") (pys "7075") (pys "T6XX") (1/25) (pys "bare")).CorrectedMin
      = none ∧
    (search_all exStore (pys "XXX2") (pys "7075") (pys "T6XX") (1/25) (pys "bare")).CorrectedMin
      ≠ ((pyGet exStore.cond_idx (pyNorm (pys "XXX2"), pyNorm (pys "7075"),
          pyNorm (pys "T6XX"))).getD (none, none)).1 := by
  exact ⟨by decide, rfl, by decide, by decide, by decide⟩

/-- C1 amended: the corrected bound equals the base bound exactly when no
tabcode is selected for the surface; when a tabcode is present and the base
bound exists, the corrected bound is exactly the raw correction-lookup result,
and that result is absent (with no fallback to the base) whenever the numbered
correction table does not exist. -/
theorem correction_fallback_amended (st : MaterialDataStore)
    (spec material temper : PyStr) (t : ℚ) (surface : PyStr) :
    ((surfaceSelect st (concatKey (pyNorm spec) (pyNorm material) (pyNorm temper)) surface).2.2
        = none →
      (search_all st spec material temper t surface).CorrectedMin =
        ((pyGet st.cond_idx (pyNorm spec, pyNorm material, pyNorm temper)).getD (none, none)).1 ∧
      (search_all st spec material temper t surface).CorrectedMax =
        ((pyGet st.cond_idx (pyNorm spec, pyNorm material, pyNorm temper)).getD (none, none)).2) ∧
    (∀ (c : ℤ) (b : ℚ),
      (surfaceSelect st (concatKey (pyNorm spec) (pyNorm material) (pyNorm temper)) surface).2.2
        = some c →
      ((pyGet st.cond_idx (pyNorm spec, pyNorm material, pyNorm temper)).getD (none, none)).1
        = some b →
      (search_all st spec material temper t surface).CorrectedMin = correct_iacs st c b t) ∧
    (∀ (c : ℤ) (b : ℚ),
      (surfaceSelect st (concatKey (pyNorm spec) (pyNorm material) (pyNorm temper)) surface).2.2
        = some c →
      ((pyGet st.cond_idx (pyNorm spec, pyNorm material, pyNorm temper)).getD (none, none)).2
        = some b →
      (search_all st spec material temper t surface).CorrectedMax = correct_iacs st c b t) ∧
    (∀ (c : ℤ) (b t2 : ℚ), pyGet st.corr_tables c = none → correct_iacs st c b t2 = none) := by
  refine ⟨?_, ?_, ?_, ?_⟩
  · intro h; constructor <;> simp [search_all, h]
  · intro c b hc hb; simp [search_all, hc, hb]
  · intro c b hc hb; simp [search_all, hc, hb]
  · intro c b t2 h; simp [correct_iacs, h]

/-- Witness for C1 amended on exStore with the clad surface, whose tabcode entry
carries no clad code, so both corrected bounds equal the base bounds. -/
theorem correction_fallback_amended_witness :
    (surfaceSelect exStore
        (concatKey (pyNorm (pys "XXX2")) (pyNorm (pys "7075")) (pyNorm (pys "T6XX")))
        (pys "clad")).2.2 = none ∧
    (search_all exStore (pys "XXX2") (pys "7075") (pys "T6XX") 1 (pys "clad")).CorrectedMin =
      ((pyGet exStore.cond_idx (pyNorm (pys "XXX2"), pyNorm (pys "7075"),
          pyNorm (pys "T6XX"))).getD (none, none)).1 :=
  ⟨by decide,
    ((correction_fallback_amended exStore (pys "XXX2") (pys "7075") (pys "T6XX") 1
      (pys "clad")).1 (by decide)).1⟩

/-! Normalization lemmas for C4. -/

theorem pyUpperChar_idem (c : ℕ) : pyUpperChar (pyUpperChar c) = pyUpperChar c := by
  simp only [pyUpperChar]
  split_ifs <;> omega

theorem pyIsSpace_pyUpperChar (c : ℕ) : pyIsSpace (pyUpperChar c) = pyIsSpace c := by
  simp only [pyIsSpace, pyUpperChar]
  split_ifs with h
  · rw [decide_eq_decide]
    omega
  · rfl

theorem dropWhile_dropWhile {α : Type} (p : α → Bool) (l : List α) :
    (l.dropWhile p).dropWhile p = l.dropWhile p := by
  induction l with
  | nil => rfl
  | cons a t ih =>
    by_cases h : p a
    · simp [List.dropWhile_cons, h, ih]
    · simp [List.dropWhile_cons, h]

theorem dropWhile_map_of_comm {α : Type} (p : α → Bool) (f : α → α)
    (hf : ∀ a, p (f a) = p a) (l : List α) :
    (l.map f).dropWhile p = (l.dropWhile p).map f := by
  induction l with
  | nil => rfl
  | cons a t ih => by_cases h : p a <;> simp [List.dropWhile_cons, hf, h, ih]

theorem length_dropWhile_le_self {α : Type} (p : α → Bool) (l : List α) :
    (l.dropWhile p).length ≤ l.length := by
  induction l with
  | nil => simp
  | cons a t ih =>
    by_cases h : p a
    · simp only [List.dropWhile_cons, if_pos h, List.length_cons]
      omega
    · simp [List.dropWhile_cons, h]

theorem head_false_of_dropWhile_eq_self {α : Type} (p : α → Bool) (a : α) (t : List α)
    (h : (a :: t).dropWhile p = a :: t) : p a = false := by
  by_contra hc
  have hpa : p a = true := by simpa using hc
  rw [List.dropWhile_cons, if_pos hpa] at h
  have hlen := congrArg List.length h
  have hle := length_dropWhile_le_self p t
  simp only [List.length_cons] at hlen
  omega

theorem dropWhile_take_of_eq_self {α : Type} (p : α → Bool) (l : List α)
    (h : l.dropWhile p = l) (m : ℕ) : (l.take m).dropWhile p = l.take m := by
  cases l with
  | nil => simp
  | cons a t =>
    cases m with
    | zero => rfl
    | succ m =>
      have hpa := head_false_of_dropWhile_eq_self p a t h
      simp [List.take_succ_cons, List.dropWhile_cons, hpa]

theorem dropWhile_eq_drop_exists {α : Type} (p : α → Bool) (l : List α) :
    ∃ k, l.dropWhile p = l.drop k := by
  induction l with
  | nil => exact ⟨0, rfl⟩
  | cons a t ih =>
    by_cases h : p a
    · obtain ⟨k, hk⟩ := ih
      exact ⟨k + 1, by simpa [List.dropWhile_cons, h] using hk⟩
    · exact ⟨0, by simp [List.dropWhile_cons, h]⟩

theorem pyRstrip_eq_take (l : PyStr) : ∃ m, pyRstrip l = l.take m := by
  obtain ⟨k, hk⟩ := dropWhile_eq_drop_exists pyIsSpace l.reverse
  refine ⟨l.length - k, ?_⟩
  unfold pyRstrip
  rw [hk, List.reverse_drop]
  simp

theorem pyLstrip_pyLstrip (l : PyStr) : pyLstrip (pyLstrip l) = pyLstrip l :=
  dropWhile_dropWhile _ _

theorem pyRstrip_pyRstrip (l : PyStr) : pyRstrip (pyRstrip l) = pyRstrip l := by
  unfold pyRstrip
  rw [List.reverse_reverse, dropWhile_dropWhile]

theorem pyLstrip_pyRstrip_of_eq_self (l : PyStr) (h : pyLstrip l = l) :
    pyLstrip (pyRstrip l) = pyRstrip l := by
  obtain ⟨m, hm⟩ := pyRstrip_eq_take l
  rw [hm]
  exact dropWhile_take_of_eq_self _ _ h m

theorem pyStrip_idem (l : PyStr) : pyStrip (pyStrip l) = pyStrip l := by
  unfold pyStrip
  rw [pyLstrip_pyRstrip_of_eq_self _ (pyLstrip_pyLstrip l), pyRstrip_pyRstrip]

theorem pyLstrip_pyUpper (l : PyStr) : pyLstrip (pyUpper l) = pyUpper (pyLstrip l) :=
  dropWhile_map_of_comm _ _ pyIsSpace_pyUpperChar l

theorem pyRstrip_pyUpper (l : PyStr) : pyRstrip (pyUpper l) = pyUpper (pyRstrip l) := by
  unfold pyRstrip pyUpper
  rw [← List.map_reverse, dropWhile_map_of_comm _ _ pyIsSpace_pyUpperChar, List.map_reverse]

theorem pyStrip_pyUpper (l : PyStr) : pyStrip (pyUpper l) = pyUpper (pyStrip l) := by
  unfold pyStrip
  rw [pyLstrip_pyUpper, pyRstrip_pyUpper]

theorem pyUpper_pyUpper (l : PyStr) : pyUpper (pyUpper l) = pyUpper l := by
  unfold pyUpper
  rw [List.map_map]
  congr 1
  funext c
  exact pyUpperChar_idem c

theorem pyNorm_idem (l : PyStr) : pyNorm (pyNorm l) = pyNorm l := by
  unfold pyNorm
  rw [pyStrip_pyUpper, pyUpper_pyUpper, pyStrip_idem]

/-- C4: search_all is insensitive to case and surrounding whitespace of the
spec, material and temper arguments: applying it to the trimmed-uppercased
tokens gives the same result, and normalization itself is idempotent. -/
theorem search_all_norm_insensitive (st : MaterialDataStore)
    (spec material temper : PyStr) (t : ℚ) (surface s : PyStr) :
    search_all st (pyNorm spec) (pyNorm material) (pyNorm temper) t surface =
      search_all st spec material temper t surface ∧
    pyNorm (pyNorm s) = pyNorm s :=
  ⟨by simp [search_all, pyNorm_idem], pyNorm_idem s⟩

/-! Header-map lemmas for C9. -/

theorem pyGet_foldl_pySet_none {α : Type} {K V : Type} [DecidableEq K]
    (g : α → K) (f : α → V) (l : List α) (d : List (K × V)) (k : K) :
    pyGet (l.foldl (fun d c => pySet d (g c) (f c)) d) k = none ↔
      (pyGet d k = none ∧ ∀ c ∈ l, g c ≠ k) := by
  induction l generalizing d with
  | nil => simp
  | cons a t ih =>
    simp only [List.foldl_cons, ih, List.mem_cons]
    constructor
    · rintro ⟨h1, h2⟩
      by_cases hga : g a = k
      · rw [hga, pyGet_pySet_self] at h1
        exact absurd h1 (by simp)
      · rw [pyGet_pySet_ne d (g a) k (f a) hga] at h1
        refine ⟨h1, fun c hc => ?_⟩
        rcases hc with hc | hc
        · rw [hc]; exact hga
        · exact h2 c hc
    · rintro ⟨h1, h2⟩
      have hga : g a ≠ k := h2 a (Or.inl rfl)
      rw [pyGet_pySet_ne d (g a) k (f a) hga]
      exact ⟨h1, fun c hc => h2 c (Or.inr hc)⟩

theorem pyGet_colsMap_none (header : List PyStr) (n : PyStr) :
    pyGet (colsMap header) n = none ↔ ∀ c ∈ header, pyLower (pyStrip c) ≠ n := by
  unfold colsMap
  rw [pyGet_foldl_pySet_none]
  simp [pyGet]

/-- C9: initialization aborts with an error exactly when a required column is
missing from the header under stripped case-insensitive matching: one of spec,
material, temper, min, max for the conductivity file, or one of concat, bare,
clad for the tabcode file. Per-row data defects never produce this error: with
all required columns present, both builders return ok on every body. -/
theorem missing_column_fatal (rows : List (List PyStr)) :
    ((∃ e, build_conductivity_index rows = .error e) ↔
      ∃ n ∈ condNeeds, ∀ c ∈ rows.headD [], pyLower (pyStrip c) ≠ n) ∧
    ((∃ e, load_tabcodes rows = .error e) ↔
      ∃ n ∈ tabNeeds, ∀ c ∈ rows.headD [], pyLower (pyStrip c) ≠ n) := by
  constructor
  · simp only [build_conductivity_index]
    cases hfm : firstMissing (colsMap (rows.headD [])) condNeeds with
    | some m =>
      simp only [hfm]
      constructor
      · intro _
        refine ⟨m, List.mem_of_find?_eq_some hfm, ?_⟩
        rw [← pyGet_colsMap_none]
        have := List.find?_some hfm
        simpa using this
      · intro _
        exact ⟨m, rfl⟩
    | none =>
      simp only [hfm]
      unfold firstMissing at hfm
      rw [List.find?_eq_none] at hfm
      constructor
      · rintro ⟨e, he⟩
        exact absurd he (by simp)
      · rintro ⟨n, hn, hnone⟩
        have h1 := hfm n hn
        rw [← pyGet_colsMap_none] at hnone
        rw [hnone] at h1
        exact absurd rfl h1
  · simp only [load_tabcodes]
    cases hfm : firstMissing (colsMap (rows.headD [])) tabNeeds with
    | some m =>
      simp only [hfm]
      constructor
      · intro _
        refine ⟨m, List.mem_of_find?_eq_some hfm, ?_⟩
        rw [← pyGet_colsMap_none]
        have := List.find?_some hfm
        simpa using this
      · intro _
        exact ⟨m, rfl⟩
    | none =>
      simp only [hfm]
      unfold firstMissing at hfm
      rw [List.find?_eq_none] at hfm
      constructor
      · rintro ⟨e, he⟩
        exact absurd he (by simp)
      · rintro ⟨n, hn, hnone⟩
        have h1 := hfm n hn
        rw [← pyGet_colsMap_none] at hnone
        rw [hnone] at h1
        exact absurd rfl h1

/-- Witness for C9: the empty file is missing every required column, so both
builders abort with an error. -/
theorem missing_column_fatal_witness :
    (∃ e, build_conductivity_index [] = .error e) ∧
    (∃ e, load_tabcodes [] = .error e) :=
  ⟨(missing_column_fatal []).1.mpr ⟨pys "spec", by decide, by simp⟩,
    (missing_column_fatal []).2.mpr ⟨pys "concat", by decide, by simp⟩⟩

/-- C7: in the conductivity index builder, a data row whose normalized spec,
material or temper token is empty leaves the index unchanged (silently
skipped); every other row stores exactly the pair of parsed min/max cells,
where an unparseable cell is already absent by construction of condRowVals,
under its normalized key; and the row processed last wins, since looking up
its key after the fold returns exactly its values no matter what earlier rows
(including duplicates of the key) contributed. -/
theorem cond_index_row_semantics :
    (∀ (cols : List (PyStr × PyStr)) (idx : CondIdx) (row : List (PyStr × PyStr)),
      ((condRowKey cols row).1 = [] ∨ (condRowKey cols row).2.1 = [] ∨
        (condRowKey cols row).2.2 = []) →
      condStep cols idx row = idx) ∧
    (∀ (header : List PyStr) (body : List (List PyStr)) (r : List PyStr) (idx : CondIdx),
      build_conductivity_index (header :: (body ++ [r])) = .ok idx →
      (condRowKey (colsMap header) (rowDict header r)).1 ≠ [] →
      (condRowKey (colsMap header) (rowDict header r)).2.1 ≠ [] →
      (condRowKey (colsMap header) (rowDict header r)).2.2 ≠ [] →
      pyGet idx (condRowKey (colsMap header) (rowDict header r)) =
        some (condRowVals (colsMap header) (rowDict header r))) := by
  constructor
  · intro cols idx row h
    simp [condStep, h]
  · intro header body r idx hok h1 h2 h3
    simp only [build_conductivity_index, List.headD_cons, List.drop_succ_cons,
      List.drop_zero] at hok
    cases hfm : firstMissing (colsMap header) condNeeds with
    | some m => rw [hfm] at hok; exact absurd hok (by simp)
    | none =>
      rw [hfm] at hok
      have hidx : idx =
          (List.map (rowDict header) (body ++ [r])).foldl (condStep (colsMap header)) [] := by
        cases hok
        rfl
      rw [hidx, List.map_append, List.foldl_append]
      show pyGet (List.foldl (condStep (colsMap header))
        (List.foldl (condStep (colsMap header)) [] (List.map (rowDict header) body))
        [rowDict header r]) _ = _
      rw [List.foldl_cons, List.foldl_nil]
      have hcond : ¬((condRowKey (colsMap header) (rowDict header r)).1 = [] ∨
          (condRowKey (colsMap header) (rowDict header r)).2.1 = [] ∨
          (condRowKey (colsMap header) (rowDict header r)).2.2 = []) := by tauto
      simp only [condStep, if_neg hcond]
      exact pyGet_pySet_self _ _ _

/-- Witness for C7: a one-row file with all key tokens present and non-numeric
min/max cells stores the pair (absent, absent) under the normalized key. -/
theorem cond_index_row_semantics_witness :
    build_conductivity_index
        [[pys "spec", pys "material", pys "temper", pys "min", pys "max"],
         [pys " a ", pys "b", pys "c", pys "x", pys "y"]] =
      .ok [((pys "A", pys "B", pys "C"), (none, none))] ∧
    pyGet [((pys "A", pys "B", pys "C"), (none, none))]
        (condRowKey
          (colsMap [pys "spec", pys "material", pys "temper", pys "min", pys "max"])
          (rowDict [pys "spec", pys "material", pys "temper", pys "min", pys "max"]
            [pys " a ", pys "b", pys "c", pys "x", pys "y"])) =
      some (condRowVals
        (colsMap [pys "spec", pys "material", pys "temper", pys "min", pys "max"])
        (rowDict [pys "spec", pys "material", pys "temper", pys "min", pys "max"]
          [pys " a ", pys "b", pys "c", pys "x", pys "y"])) :=
  ⟨rfl,
    (cond_index_row_semantics).2
      [pys "spec", pys "material", pys "temper", pys "min", pys "max"] []
      [pys " a ", pys "b", pys "c", pys "x", pys "y"]
      [((pys "A", pys "B", pys "C"), (none, none))]
      rfl (by decide) (by decide) (by decide)⟩

/-! Correction-table loader lemmas for C6. -/

theorem corrRowStep_invalid (thicks : List ℚ) (acc : List ℚ × List (List (Option ℚ)))
    (r : List PyStr) (h : corrRowValid thicks r = false) : corrRowStep thicks acc r = acc := by
  unfold corrRowValid at h
  unfold corrRowStep
  split
  · rfl
  · rename_i u hto
    rw [hto] at h
    simp only [Option.isSome_some, Bool.true_and, decide_eq_false_iff_not] at h
    rw [if_neg h]

theorem corrRowStep_lengths (thicks : List ℚ) (acc : List ℚ × List (List (Option ℚ)))
    (r : List PyStr) (h1 : acc.2.length = acc.1.length)
    (h2 : ∀ row ∈ acc.2, row.length = thicks.length) :
    (corrRowStep thicks acc r).2.length = (corrRowStep thicks acc r).1.length ∧
      ∀ row ∈ (corrRowStep thicks acc r).2, row.length = thicks.length := by
  unfold corrRowStep
  split
  · exact ⟨h1, h2⟩
  · rename_i u hto
    by_cases hlen : (((r.drop 1).take thicks.length).map to_float).length = thicks.length
    · rw [if_pos hlen]
      constructor
      · simp [h1]
      · intro row hrow
        rcases List.mem_append.mp hrow with hr | hr
        · exact h2 row hr
        · rw [List.mem_singleton] at hr
          rw [hr]
          exact hlen
    · rw [if_neg hlen]
      exact ⟨h1, h2⟩

theorem corrBody_go_lengths (thicks : List ℚ) (body : List (List PyStr)) :
    ∀ acc, acc.2.length = acc.1.length → (∀ row ∈ acc.2, row.length = thicks.length) →
      (body.foldl (corrRowStep thicks) acc).2.length =
        (body.foldl (corrRowStep thicks) acc).1.length ∧
      ∀ row ∈ (body.foldl (corrRowStep thicks) acc).2, row.length = thicks.length := by
  induction body with
  | nil => intro acc h1 h2; exact ⟨h1, h2⟩
  | cons r t ih =>
    intro acc h1 h2
    rw [List.foldl_cons]
    obtain ⟨g1, g2⟩ := corrRowStep_lengths thicks acc r h1 h2
    exact ih _ g1 g2

theorem corrBody_filter_eq (thicks : List ℚ) (body : List (List PyStr)) :
    ∀ acc, body.foldl (corrRowStep thicks) acc =
      (body.filter (corrRowValid thicks)).foldl (corrRowStep thicks) acc := by
  induction body with
  | nil => intro acc; rfl
  | cons r t ih =>
    intro acc
    rw [List.foldl_cons, List.filter_cons]
    by_cases hv : corrRowValid thicks r = true
    · rw [if_pos hv, List.foldl_cons]
      exact ih _
    · have hf : corrRowValid thicks r = false := by simpa using hv
      rw [if_neg (by simp [hf]), corrRowStep_invalid thicks acc r hf]
      exact ih _

/-- C6: every constructed correction table satisfies the dimension invariant
(grid row count equals the uncorrected-axis length, each stored row has the
thickness-axis length); a body row whose cell count does not match the
thickness axis, or whose first cell fails to parse, is dropped whole without
changing the accumulated table; and the body fold computes the same table as
the fold over only the valid rows, so dropped rows never block valid ones. -/
theorem correction_table_invariants :
    (∀ (rows : List (List PyStr)) (T : CorrTable), load_correction_table rows = some T →
      T.grid.length = T.uncorr.length ∧ ∀ row ∈ T.grid, row.length = T.thicks.length) ∧
    (∀ (thicks : List ℚ) (acc : List ℚ × List (List (Option ℚ))) (r : List PyStr),
      corrRowValid thicks r = false → corrRowStep thicks acc r = acc) ∧
    (∀ (thicks : List ℚ) (body : List (List PyStr)),
      corrBody thicks body = corrBody thicks (body.filter (corrRowValid thicks))) := by
  refine ⟨?_, fun thicks acc r h => corrRowStep_invalid thicks acc r h,
    fun thicks body => corrBody_filter_eq thicks body ([], [])⟩
  intro rows T hT
  unfold load_correction_table at hT
  cases hrows : rows.filter nonBlankRow with
  | nil => rw [hrows] at hT; exact absurd hT (by simp)
  | cons header body =>
    rw [hrows] at hT
    simp only [Option.some.injEq] at hT
    subst hT
    exact corrBody_go_lengths _ body ([], []) rfl (by simp)

/-- Witness for C6 on a small table with one malformed body row: the loader
keeps the two valid rows and the dimension invariant holds. -/
theorem correction_table_invariants_witness :
    load_correction_table
        [[pys "lbl", pys "x", pys "y"], [pys "a", pys "p", pys "q"],
         [pys "b"], [pys "c", pys "r", pys "s"]] =
      some ⟨[], [], []⟩ ∧
    (CorrTable.grid ⟨[], [], []⟩).length = (CorrTable.uncorr ⟨[], [], []⟩).length ∧
    ∀ row ∈ CorrTable.grid ⟨[], [], []⟩, row.length = (CorrTable.thicks ⟨[], [], []⟩).length :=
  ⟨rfl,
    (correction_table_invariants).1
      [[pys "lbl", pys "x", pys "y"], [pys "a", pys "p", pys "q"],
       [pys "b"], [pys "c", pys "r", pys "s"]] ⟨[], [], []⟩ rfl⟩

/-! Header-detection lemmas for C8. -/

theorem headerScanGo_found (l : List (List PyStr)) :
    ∀ (off i : ℕ) (r : List PyStr), l[i]? = some r → 5 ≤ headerScore r →
      (∀ (j : ℕ) (rj : List PyStr), j < i → l[j]? = some rj → headerScore rj < 5) →
      headerScanGo l off = off + i := by
  induction l with
  | nil => intro off i r h _ _; simp at h
  | cons a t ih =>
    intro off i r h hscore hmin
    cases i with
    | zero =>
      rw [List.getElem?_cons_zero] at h
      injection h with h
      subst h
      unfold headerScanGo
      rw [if_pos hscore]
      omega
    | succ k =>
      have ha : headerScore a < 5 := hmin 0 a (Nat.succ_pos k) (by simp)
      unfold headerScanGo
      rw [if_neg (by omega)]
      have hrec := ih (off + 1) k r (by simpa using h) hscore
        (fun j rj hj hjr => hmin (j + 1) rj (by omega) (by simpa using hjr))
      rw [hrec]
      omega

theorem headerScanGo_none (l : List (List PyStr)) :
    ∀ off : ℕ, (∀ (j : ℕ) (rj : List PyStr), l[j]? = some rj → headerScore rj < 5) →
      headerScanGo l off = 0 := by
  induction l with
  | nil => intro off _; rfl
  | cons a t ih =>
    intro off h
    have ha : headerScore a < 5 := h 0 a (by simp)
    unfold headerScanGo
    rw [if_neg (by omega)]
    exact ih (off + 1) (fun j rj hjr => h (j + 1) rj (by simpa using hjr))

/-- C8: the detected header row is the first row among the first 10 whose score
(count of cells holding at least two hyphens) reaches 5; when no row among the
first 10 qualifies, the index defaults to 0. The scan looks only at positions
that exist, so shorter files are scanned as far as they go. -/
theorem header_row_detection (rows : List (List PyStr)) :
    (∀ (i : ℕ) (r : List PyStr), i < 10 → rows[i]? = some r → 5 ≤ headerScore r →
      (∀ (j : ℕ) (rj : List PyStr), j < i → rows[j]? = some rj → headerScore rj < 5) →
      header_row_index rows = i) ∧
    ((∀ (j : ℕ) (rj : List PyStr), j < 10 → rows[j]? = some rj → headerScore rj < 5) →
      header_row_index rows = 0) := by
  constructor
  · intro i r hi10 hget hscore hmin
    unfold header_row_index
    have h1 : (rows.take 10)[i]? = some r := by
      rw [List.getElem?_take_of_lt hi10]
      exact hget
    have h2 : ∀ (j : ℕ) (rj : List PyStr), j < i → (rows.take 10)[j]? = some rj →
        headerScore rj < 5 := by
      intro j rj hj hjget
      have hj10 : j < 10 := lt_trans hj hi10
      rw [List.getElem?_take_of_lt hj10] at hjget
      exact hmin j rj hj hjget
    have := headerScanGo_found (rows.take 10) 0 i r h1 hscore h2
    simpa using this
  · intro h
    unfold header_row_index
    apply headerScanGo_none
    intro j rj hjget
    by_cases hj10 : j < 10
    · rw [List.getElem?_take_of_lt hj10] at hjget
      exact h j rj hj10 hjget
    · exfalso
      have hlen : (rows.take 10).length ≤ j := by
        have := List.length_take_le 10 rows
        omega
      rw [List.getElem?_len_le hlen] at hjget
      exact absurd hjget (by simp)

/-- Witness for C8 on a file whose qualifying row sits at index 1. -/
theorem header_row_detection_witness :
    header_row_index
        [[pys "x"],
         [pys "A-B-C", pys "A-B-C", pys "A-B-C", pys "A-B-C", pys "A-B-C"]] = 1 :=
  (header_row_detection _).1 1
    [pys "A-B-C", pys "A-B-C", pys "A-B-C", pys "A-B-C", pys "A-B-C"]
    (by omega) rfl (by decide)
    (by
      intro j rj hj hget
      have hj0 : j = 0 := by omega
      subst hj0
      rw [List.getElem?_cons_zero] at hget
      injection hget with hget
      subst hget
      decide)

/-! Nearest-value search lemmas for C2. -/

/-- Distance of a series pair to the query thickness. -/
def nvDist {V : Type} (th : ℚ) (p : ℚ × Option V) : ℚ := |p.1 - th|

/-- Minimal distance of a series to the query thickness (none for the empty
series); written from the claim to characterize the scan. -/
def dminQ {V : Type} (th : ℚ) : List (ℚ × Option V) → Option ℚ
  | [] => none
  | p :: ps =>
    match dminQ th ps with
    | none => some (nvDist th p)
    | some m => some (min (nvDist th p) m)

/-- Weak comparison of a distance against an optional bound (none is infinity). -/
def distLeB (d : ℚ) (bd : Option ℚ) : Bool :=
  match bd with
  | none => true
  | some b => decide (d ≤ b)

/-- First pair of the series attaining the minimal distance; written from the
claim (ties broken by first-encountered) to characterize the scan. -/
def firstMin {V : Type} (th : ℚ) : List (ℚ × Option V) → Option (ℚ × Option V)
  | [] => none
  | p :: ps => if distLeB (nvDist th p) (dminQ th ps) then some p else firstMin th ps

theorem dminQ_eq_none_iff {V : Type} (th : ℚ) (l : List (ℚ × Option V)) :
    dminQ th l = none ↔ l = [] := by
  cases l with
  | nil => simp [dminQ]
  | cons p ps =>
    simp only [dminQ]
    cases dminQ th ps <;> simp

theorem dminQ_isSome_of_ne_nil {V : Type} (th : ℚ) (l : List (ℚ × Option V)) (h : l ≠ []) :
    ∃ m, dminQ th l = some m := by
  cases hd : dminQ th l with
  | none => exact absurd ((dminQ_eq_none_iff th l).mp hd) h
  | some m => exact ⟨m, rfl⟩

theorem firstMin_isSome_of_ne_nil {V : Type} (th : ℚ) (l : List (ℚ × Option V)) :
    l ≠ [] → ∃ q, firstMin th l = some q := by
  induction l with
  | nil => intro h; cases h rfl
  | cons p ps ih =>
    intro _
    simp only [firstMin]
    by_cases hb : distLeB (nvDist th p) (dminQ th ps) = true
    · rw [if_pos hb]
      exact ⟨p, rfl⟩
    · rw [if_neg hb]
      apply ih
      intro hnil
      subst hnil
      simp [dminQ, distLeB] at hb

theorem dminQ_le {V : Type} (th : ℚ) :
    ∀ (l : List (ℚ × Option V)) (m : ℚ), dminQ th l = some m →
      ∀ p ∈ l, m ≤ nvDist th p := by
  intro l
  induction l with
  | nil => intro m hm; simp [dminQ] at hm
  | cons p ps ih =>
    intro m hm q hq
    simp only [dminQ] at hm
    cases hps : dminQ th ps with
    | none =>
      rw [hps] at hm
      injection hm with hm
      have hpsnil : ps = [] := (dminQ_eq_none_iff th ps).mp hps
      subst hpsnil
      have : q = p := by simpa using hq
      subst this
      rw [← hm]
    | some m2 =>
      rw [hps] at hm
      injection hm with hm
      rcases List.mem_cons.mp hq with hqp | hq2
      · rw [hqp, ← hm]
        exact min_le_left _ _
      · calc m = min (nvDist th p) m2 := hm.symm
          _ ≤ m2 := min_le_right _ _
          _ ≤ nvDist th q := ih m2 hps q hq2

theorem firstMin_char {V : Type} (th : ℚ) :
    ∀ (l : List (ℚ × Option V)) (m : ℚ), dminQ th l = some m →
      ∃ (i : ℕ) (hi : i < l.length),
        firstMin th l = some l[i] ∧ nvDist th l[i] = m ∧
        ∀ (j : ℕ) (hj : j < l.length), j < i → m < nvDist th l[j] := by
  intro l
  induction l with
  | nil => intro m hm; simp [dminQ] at hm
  | cons p ps ih =>
    intro m hm
    simp only [dminQ] at hm
    cases hps : dminQ th ps with
    | none =>
      rw [hps] at hm
      injection hm with hm
      refine ⟨0, by simp, ?_, ?_, ?_⟩
      · simp only [firstMin, hps]
        rfl
      · simpa using hm
      · intro j hj hj0
        omega
    | some m2 =>
      rw [hps] at hm
      injection hm with hm
      obtain ⟨i2, hi2, hfm2, hdist2, hstrict2⟩ := ih m2 hps
      by_cases hle : nvDist th p ≤ m2
      · refine ⟨0, by simp, ?_, ?_, ?_⟩
        · simp only [firstMin, hps]
          rw [if_pos (by simpa [distLeB] using hle)]
          simp
        · simp only [List.getElem_cons_zero]
          rw [← hm]
          exact (min_eq_left hle).symm
        · intro j hj hj0
          omega
      · push_neg at hle
        refine ⟨i2 + 1, by simpa using hi2, ?_, ?_, ?_⟩
        · simp only [firstMin, hps]
          rw [if_neg (by simpa [distLeB] using hle.not_le)]
          rw [hfm2]
          simp
        · rw [List.getElem_cons_succ, hdist2, ← hm]
          exact (min_eq_right (le_of_lt hle)).symm
        · intro j hj hj0
          cases j with
          | zero =>
            simp only [List.getElem_cons_zero]
            rw [← hm]
            calc min (nvDist th p) m2 ≤ m2 := min_le_right _ _
              _ < nvDist th p := hle
          | succ j2 =>
            rw [List.getElem_cons_succ]
            have hm2j : m2 < nvDist th ps[j2] :=
              hstrict2 j2 (by simpa using hj) (by omega)
            calc m = min (nvDist th p) m2 := hm.symm
              _ ≤ m2 := min_le_right _ _
              _ < nvDist th ps[j2] := hm2j

theorem bestScan_char {V : Type} (th : ℚ) :
    ∀ (l : List (ℚ × Option V)) (m : ℚ) (q : ℚ × Option V), dminQ th l = some m →
      firstMin th l = some q → ∀ (bv : Option V) (bd : Option ℚ),
      bestScan th l bv bd = if distLtB m bd then q.2 else bv := by
  intro l
  induction l with
  | nil => intro m q hm; simp [dminQ] at hm
  | cons p ps ih =>
    intro m q hm hq bv bd
    simp only [dminQ] at hm
    simp only [firstMin] at hq
    cases hps : dminQ th ps with
    | none =>
      rw [hps] at hm hq
      injection hm with hm
      have hpsnil : ps = [] := (dminQ_eq_none_iff th ps).mp hps
      subst hpsnil
      simp only [distLeB, if_pos] at hq
      injection hq with hq
      subst hq
      show (if distLtB (nvDist th p) bd then bestScan th [] p.2 (some (nvDist th p))
        else bestScan th [] bv bd) = if distLtB m bd then p.2 else bv
      rw [← hm]
      rfl
    | some m2 =>
      rw [hps] at hm hq
      injection hm with hm
      have hpsne : ps ≠ [] := by
        intro hnil
        subst hnil
        simp [dminQ] at hps
      obtain ⟨q2, hq2⟩ := firstMin_isSome_of_ne_nil th ps hpsne
      have IH := ih m2 q2 hps hq2
      show (if distLtB (nvDist th p) bd then bestScan th ps p.2 (some (nvDist th p))
        else bestScan th ps bv bd) = if distLtB m bd then q.2 else bv
      by_cases hle : nvDist th p ≤ m2
      · rw [if_pos (by simpa [distLeB] using hle)] at hq
        injection hq with hq
        subst hq
        have hmeq : m = nvDist th p := by rw [← hm]; exact min_eq_left hle
        subst hmeq
        rw [IH p.2 (some (nvDist th p)), IH bv bd]
        have hnm2 : distLtB m2 (some (nvDist th p)) = false := by
          simp only [distLtB, decide_eq_false_iff_not, not_lt]
          exact hle
        rw [hnm2]
        simp only [Bool.false_eq_true, if_false]
        cases bd with
        | none => simp [distLtB]
        | some b =>
          by_cases hb : nvDist th p < b
          · have hb1 : distLtB (nvDist th p) (some b) = true := by simp [distLtB, hb]
            rw [hb1]
            simp
          · have hb1 : distLtB (nvDist th p) (some b) = false := by simp [distLtB, hb]
            have hm2b : ¬ m2 < b := fun hc => hb (lt_of_le_of_lt hle hc)
            have hb2 : distLtB m2 (some b) = false := by simp [distLtB, hm2b]
            rw [hb1, hb2]
            simp
      · push_neg at hle
        rw [if_neg (by simpa [distLeB] using hle.not_le)] at hq
        rw [hq] at hq2
        injection hq2 with hq2
        subst hq2
        have hmeq : m = m2 := by rw [← hm]; exact min_eq_right (le_of_lt hle)
        subst hmeq
        rw [IH p.2 (some (nvDist th p)), IH bv bd]
        have hyes : distLtB m (some (nvDist th p)) = true := by
          simpa [distLtB] using hle
        rw [hyes]
        cases bd with
        | none => simp [distLtB]
        | some b =>
          by_cases hb : nvDist th p < b
          · have hb1 : distLtB (nvDist th p) (some b) = true := by simp [distLtB, hb]
            have hb2 : distLtB m (some b) = true := by simp [distLtB, lt_trans hle hb]
            rw [hb1, hb2]
            simp
          · have hb1 : distLtB (nvDist th p) (some b) = false := by simp [distLtB, hb]
            rw [hb1]
            simp

theorem find?_filter_map {α β : Type} (l : List α) (pb : α → Bool) (f : α → β) (q : β → Bool) :
    ((l.filter pb).map f).find? q = (l.find? fun x => pb x && q (f x)).map f := by
  induction l with
  | nil => rfl
  | cons x t ih =>
    by_cases hp : pb x
    · rw [List.filter_cons_of_pos hp, List.map_cons]
      by_cases hq : q (f x)
      · rw [List.find?_cons_of_pos _ hq, List.find?_cons_of_pos _ (by simp [hp, hq])]
        rfl
      · rw [List.find?_cons_of_neg _ (by simpa using hq),
          List.find?_cons_of_neg _ (by simp [hp, hq]), ih]
    · rw [List.filter_cons_of_neg (by simpa using hp),
        List.find?_cons_of_neg _ (by simp [hp]), ih]

theorem head?_filter_eq_find? {α : Type} (pb : α → Bool) (l : List α) :
    (l.filter pb).head? = l.find? pb := by
  induction l with
  | nil => rfl
  | cons x t ih =>
    by_cases hp : pb x
    · rw [List.filter_cons_of_pos hp, List.find?_cons_of_pos _ hp]
      rfl
    · rw [List.filter_cons_of_neg (by simpa using hp),
        List.find?_cons_of_neg _ (by simpa using hp), ih]

/-- Reduction of nearest_value on a nonempty series. -/
theorem nearest_value_eq {V : Type} (pairs : List (ℚ × Option V)) (th : ℚ)
    (h : pairs ≠ []) :
    nearest_value pairs th =
      match ((pairs.filter fun p => decide (|p.1 - th| ≤ nvTol)).map Prod.snd).find?
          Option.isSome with
      | some v => v
      | none =>
        match (pairs.filter fun p => decide (|p.1 - th| ≤ nvTol)).map Prod.snd with
        | v0 :: _ => v0
        | [] => bestScan th pairs none none := by
  rw [nearest_value, if_neg (by simpa using h)]

/-- C2: characterization of the nearest-value search over a hardness series
sorted ascending by thickness. On the empty series the result is absent. When
some entry lies within the 1e-6 tolerance of the query, the result is the
value of the first tolerance-matching entry with a present value, or the first
tolerance-matching entry's absent value when all tolerance matches are absent.
When no entry is within tolerance, the result is the value of the entry at
minimal absolute distance, ties broken by the first encountered in series
order. -/
theorem nearest_value_spec {V : Type} (pairs : List (ℚ × Option V)) (th : ℚ)
    (hs : List.Sorted (· ≤ ·) (pairs.map Prod.fst)) :
    (pairs = [] → nearest_value pairs th = none) ∧
    (∀ p0, (pairs.find? fun p => decide (|p.1 - th| ≤ nvTol) && p.2.isSome) = some p0 →
      nearest_value pairs th = p0.2) ∧
    (∀ p0, (pairs.find? fun p => decide (|p.1 - th| ≤ nvTol)) = some p0 →
      (∀ p ∈ pairs, |p.1 - th| ≤ nvTol → p.2 = none) →
      nearest_value pairs th = p0.2) ∧
    ((∀ p ∈ pairs, ¬ |p.1 - th| ≤ nvTol) → pairs ≠ [] →
      ∃ (i : ℕ) (hi : i < pairs.length),
        nearest_value pairs th = pairs[i].2 ∧
        (∀ (j : ℕ) (hj : j < pairs.length), |pairs[i].1 - th| ≤ |pairs[j].1 - th|) ∧
        (∀ (j : ℕ) (hj : j < pairs.length), j < i → |pairs[i].1 - th| < |pairs[j].1 - th|)) := by
  refine ⟨?_, ?_, ?_, ?_⟩
  · intro h
    subst h
    rfl
  · intro p0 hfind
    have hne : pairs ≠ [] := by
      rintro rfl
      simp at hfind
    rw [nearest_value_eq pairs th hne]
    rw [find?_filter_map pairs _ Prod.snd Option.isSome, hfind]
    rfl
  · intro p0 hfind hall
    have hne : pairs ≠ [] := by
      rintro rfl
      simp at hfind
    rw [nearest_value_eq pairs th hne]
    have hnone : ((pairs.filter fun p => decide (|p.1 - th| ≤ nvTol)).map Prod.snd).find?
        Option.isSome = none := by
      rw [List.find?_eq_none]
      intro v hv
      rcases List.mem_map.mp hv with ⟨p, hpmem, hpv⟩
      rcases List.mem_filter.mp hpmem with ⟨hpin, hptol⟩
      have : p.2 = none := hall p hpin (by simpa using hptol)
      rw [← hpv, this]
      simp
    rw [hnone]
    have hhead : ((pairs.filter fun p => decide (|p.1 - th| ≤ nvTol)).map Prod.snd).head? =
        some p0.2 := by
      rw [List.head?_map, head?_filter_eq_find?, hfind]
      rfl
    cases hexact : (pairs.filter fun p => decide (|p.1 - th| ≤ nvTol)).map Prod.snd with
    | nil => rw [hexact] at hhead; exact absurd hhead (by simp)
    | cons v0 rest =>
      rw [hexact] at hhead
      rw [List.head?_cons] at hhead
      injection hhead with hhead
  · intro hno hne
    have hfilnil : pairs.filter (fun p => decide (|p.1 - th| ≤ nvTol)) = [] := by
      rw [List.filter_eq_nil_iff]
      intro p hp
      simpa using hno p hp
    rw [nearest_value_eq pairs th hne, hfilnil]
    simp only [List.map_nil, List.find?_nil]
    obtain ⟨m, hm⟩ := dminQ_isSome_of_ne_nil th pairs hne
    obtain ⟨q, hq⟩ := firstMin_isSome_of_ne_nil th pairs hne
    have hbs := bestScan_char th pairs m q hm hq none none
    obtain ⟨i, hi, hfm, hdist, hstrict⟩ := firstMin_char th pairs m hm
    rw [hq] at hfm
    injection hfm with hfm
    refine ⟨i, hi, ?_, ?_, ?_⟩
    · rw [hbs]
      rw [hfm]
      rfl
    · intro j hj
      have hj2 := dminQ_le th pairs m hm pairs[j] (List.getElem_mem hj)
      have h2 : |pairs[i].1 - th| = m := hdist
      rw [h2]
      exact hj2
    · intro j hj hji
      have := hstrict j hj hji
      have h2 : |pairs[i].1 - th| = m := hdist
      rw [h2]
      exact this

/-- Witness for C2 on a sorted two-point series queried exactly at its first
thickness: the tolerance match with a present value is returned. -/
theorem nearest_value_spec_witness :
    List.Sorted (· ≤ ·)
      ([((1:ℚ)/25, some (pys "15")), (2/25, (none : Option PyStr))].map Prod.fst) ∧
    nearest_value [((1:ℚ)/25, some (pys "15")), (2/25, (none : Option PyStr))] (1/25) =
      some (pys "15") :=
  ⟨by norm_num [List.sorted_cons],
    (nearest_value_spec [((1:ℚ)/25, some (pys "15")), (2/25, (none : Option PyStr))] (1/25)
        (by norm_num [List.sorted_cons])).2.1
      ((1:ℚ)/25, some (pys "15")) (by norm_num [List.find?, nvTol])⟩
